import Mathlib

/-!
Verification of the Base122 codec (`src/lib.rs`).

This file gives a shallow embedding of the Base122 encoder and decoder from
`src/lib.rs` and proves the specification's claims about them.

Conventions of the embedding:
* Rust `u8` / `u16` values are `Nat`s; wrapping shifts are made explicit with
  `% 256` where the Rust type would truncate.
* The byte buffer is a `List Nat` (each element `< 256`).
* A Rust `String` is represented by its byte list; `String::from_utf8` is
  modelled by `utf8Parse`, which also yields the scalar values that
  `str::chars()` iterates over.
* `decode`'s result type `Result<Vec<u8>, String>` is `Except String (List Nat)`,
  wrapped in `Option`: `none` models a panic (the out-of-bounds index
  `ILLEGALS[illegal_index]` when `illegal_index = 6`).
-/

namespace Base122

set_option maxRecDepth 10000

/-- The six "dangerous" characters (`const ILLEGALS: [u8; 6]` in `src/lib.rs`). -/
def ILLEGALS : List Nat := [0, 10, 13, 34, 38, 92]

/-- Marker value for shortened sequences (`const SHORTENED: u8 = 0b111`). -/
def SHORTENED : Nat := 0b111

/-- The bit extractor closure `get7` inside `encode` in `src/lib.rs`.
State is `(cur_index, cur_bit)`; returns the extracted 7-bit chunk together
with the updated state, or `none` once the input is exhausted. -/
def get7 (data : List Nat) (curIndex curBit : Nat) : Option (Nat × Nat × Nat) :=
  if curIndex ≥ data.length then none
  else
    let firstByte := data.getD curIndex 0
    let firstPart := ((((0b11111110 >>> curBit) &&& firstByte) <<< curBit) % 256) >>> 1
    let curBit1 := curBit + 7
    if curBit1 < 8 then some (firstPart, curIndex, curBit1)
    else
      let curBit2 := curBit1 - 8
      let curIndex2 := curIndex + 1
      if curIndex2 ≥ data.length then some (firstPart, curIndex2, curBit2)
      else
        let secondByte := data.getD curIndex2 0
        let secondPart0 := ((0xFF00 >>> curBit2) &&& secondByte) &&& 0xFF
        let secondPart := if curBit2 < 8 then secondPart0 >>> (8 - curBit2) else secondPart0
        some (firstPart ||| secondPart, curIndex2, curBit2)

/-- The two escape bytes `(b1, b2)` built in `encode`'s dangerous-character
branch: `b1 = 0b11000010 | (idx & 0b111) << 2 | top bit of payload`,
`b2 = 0b10000000 | payload & 0b00111111`. -/
def mkEscape (idxField payloadBits : Nat) : Nat × Nat :=
  let b1 := 0b11000010
  let b2 := 0b10000000
  let b1 := b1 ||| ((idxField &&& 0b111) <<< 2)
  let b1 := b1 ||| (if payloadBits &&& 0b01000000 > 0 then 1 else 0)
  let b2 := b2 ||| (payloadBits &&& 0b00111111)
  (b1, b2)

/-- The main encoding loop of `encode` (`while let Some(bits) = get7()`),
with an explicit fuel parameter to express the `while` loop; `encode`
supplies more fuel than the loop can ever consume. -/
def encodeLoop (data : List Nat) : Nat → Nat → Nat → List Nat → List Nat
  | 0, _, _, acc => acc
  | fuel + 1, i, bit, acc =>
    match get7 data i bit with
    | none => acc
    | some (bits, i1, bit1) =>
      match List.findIdx? (fun x => x = bits) ILLEGALS with
      | none => encodeLoop data fuel i1 bit1 (acc ++ [bits])
      | some illegalIndex =>
        match get7 data i1 bit1 with
        | none =>
          encodeLoop data fuel i1 bit1
            (acc ++ [(mkEscape SHORTENED bits).1, (mkEscape SHORTENED bits).2])
        | some (nextBits, i2, bit2) =>
          encodeLoop data fuel i2 bit2
            (acc ++ [(mkEscape illegalIndex nextBits).1, (mkEscape illegalIndex nextBits).2])

/-- One step of UTF-8 decoding of a byte list, following the validation rules
of Rust's `String::from_utf8`: decode the first scalar value and return it
with the remaining bytes, or `none` on empty input or a malformed sequence
(stray continuation byte, overlong form, surrogate, out-of-range value). -/
def utf8DecodeFirst : List Nat → Option (Nat × List Nat)
  | [] => none
  | b :: rest =>
    if b < 0x80 then some (b, rest)
    else if b < 0xC2 then none
    else if b < 0xE0 then
      match rest with
      | b2 :: rest2 =>
        if 0x80 ≤ b2 ∧ b2 ≤ 0xBF then some ((b - 0xC0) * 64 + (b2 - 0x80), rest2)
        else none
      | [] => none
    else if b < 0xF0 then
      match rest with
      | b2 :: b3 :: rest3 =>
        if ((if b = 0xE0 then 0xA0 else 0x80) ≤ b2 ∧
            b2 ≤ (if b = 0xED then 0x9F else 0xBF)) ∧
            0x80 ≤ b3 ∧ b3 ≤ 0xBF then
          some ((b - 0xE0) * 4096 + (b2 - 0x80) * 64 + (b3 - 0x80), rest3)
        else none
      | _ => none
    else if b < 0xF5 then
      match rest with
      | b2 :: b3 :: b4 :: rest4 =>
        if ((if b = 0xF0 then 0x90 else 0x80) ≤ b2 ∧
            b2 ≤ (if b = 0xF4 then 0x8F else 0xBF)) ∧
            (0x80 ≤ b3 ∧ b3 ≤ 0xBF) ∧ 0x80 ≤ b4 ∧ b4 ≤ 0xBF then
          some ((b - 0xF0) * 262144 + (b2 - 0x80) * 4096 + (b3 - 0x80) * 64 + (b4 - 0x80), rest4)
        else none
      | _ => none
    else none

/-- Iterated UTF-8 decoding; `fuel` only bounds the iteration count (each
step consumes at least one byte, so any `fuel > length` is enough). -/
def utf8ParseAux : Nat → List Nat → Option (List Nat)
  | 0, l => if l = [] then some [] else none
  | fuel + 1, l =>
    match utf8DecodeFirst l with
    | some (c, rest) => (utf8ParseAux fuel rest).map (fun cs => c :: cs)
    | none => if l = [] then some [] else none

/-- UTF-8 validation/decoding of a byte list, as performed by Rust's
`String::from_utf8` followed by `str::chars()`: returns the scalar values,
or `none` if the bytes are not well-formed UTF-8. -/
def utf8Parse (l : List Nat) : Option (List Nat) :=
  utf8ParseAux (l.length + 1) l

/-- `pub fn encode(data: &[u8]) -> String` from `src/lib.rs`, as the byte list
of the returned string.  The final `String::from_utf8(result)
.unwrap_or_else(|_| String::new())` is modelled by the `utf8Parse` guard. -/
def encode (data : List Nat) : List Nat :=
  if data = [] then []
  else
    let result := encodeLoop data (8 * data.length + 8) 0 0 []
    if (utf8Parse result).isSome then result else []

/-- The bit accumulator closure `push7` inside `decode` in `src/lib.rs`.
State is `(cur_byte, bit_of_byte, decoded)`. -/
def push7 (st : Nat × Nat × List Nat) (byteIn : Nat) : Nat × Nat × List Nat :=
  let byte := (byteIn <<< 1) % 256
  let curByte := st.1 ||| (byte >>> st.2.1)
  let bit := st.2.1 + 7
  if bit ≥ 8 then
    ((byte <<< (7 - (bit - 8))) % 256, bit - 8, st.2.2 ++ [curByte])
  else
    (curByte, bit, st.2.2)

/-- The scalar-value loop of `decode` (`while i < chars.len()`).  Returns the
final accumulator state, or `none` when the code would panic on the
out-of-bounds access `ILLEGALS[illegal_index]` (when `illegal_index = 6`). -/
def decodeLoop : List Nat → Nat × Nat × List Nat → Option (Nat × Nat × List Nat)
  | [], st => some st
  | c :: rest, st =>
    if c > 127 then
      let illegalIndex := (c >>> 8) &&& 7
      if illegalIndex ≠ SHORTENED then
        match ILLEGALS.get? illegalIndex with
        | none => none
        | some d => decodeLoop rest (push7 (push7 st d) (c &&& 127))
      else decodeLoop rest (push7 st (c &&& 127))
    else decodeLoop rest (push7 st c)

/-- `pub fn decode(encoded: &str) -> Result<Vec<u8>, String>` from
`src/lib.rs`, taking the scalar values of the input string.  `none` models a
panic; the `Result` itself is `Except String (List Nat)`. -/
def decode (cs : List Nat) : Option (Except String (List Nat)) :=
  if cs = [] then some (Except.ok [])
  else (decodeLoop cs (0, 0, [])).map (fun st => Except.ok st.2.2)

/-- `decode (encode data)`, composed through the UTF-8 string boundary. -/
def roundtrip (data : List Nat) : Option (Except String (List Nat)) :=
  match utf8Parse (encode data) with
  | some cs => decode cs
  | none => none

/-! ## Specification-level definitions (modelled from `spec.md`) -/

/-- Modelled from the spec: the number of 7-bit chunks of an `n`-byte input,
`ceil(8*n/7)`. -/
def numChunks (n : Nat) : Nat := (8 * n + 6) / 7

/-- Modelled from the spec (§3, §4.1): the `t`-th 7-bit chunk of the input's
bit stream — bits `7t .. 7t+6`, most significant bit first, missing
low-order bits of a final short chunk zero-filled. -/
def specChunk (data : List Nat) (t : Nat) : Nat :=
  ((data.getD (7 * t / 8) 0 * 256 + data.getD (7 * t / 8 + 1) 0) >>> (9 - 7 * t % 8)) &&& 127

/-- The full chunk stream of an input buffer. -/
def chunkList (data : List Nat) : List Nat :=
  (List.range (numChunks data.length)).map (specChunk data)

/-- The chunk stream from chunk number `t` onward (recursive form, convenient
for induction along the encoder's loop). -/
def chunkSuffix (data : List Nat) (t : Nat) : List Nat :=
  if _h : t < numChunks data.length then specChunk data t :: chunkSuffix data (t + 1) else []
termination_by numChunks data.length - t

/-- Modelled from the spec (§3): the `b`-th bit of the input's bit stream,
most significant bit first within each byte, `0` past the end. -/
def streamBit (data : List Nat) (b : Nat) : Nat :=
  (data.getD (b / 8) 0 >>> (7 - b % 8)) &&& 1

/-- One output unit of the encoder, per spec §4.2: either a safe chunk
emitted as a single byte, or an escape with a 3-bit index field and a
7-bit payload. -/
inductive EncUnit where
  | safe (c : Nat)
  | esc (k p : Nat)

/-- Modelled from the spec (§4.2): the encoder's output, one unit per safe
chunk, one escape per dangerous chunk (consuming the following chunk as
payload, or using the shortened marker `7` and the dangerous chunk's own
value when it is last). -/
def specEncUnits : List Nat → List EncUnit
  | [] => []
  | c :: rest =>
    match List.findIdx? (fun x => x = c) ILLEGALS with
    | none => .safe c :: specEncUnits rest
    | some k =>
      match rest with
      | [] => [.esc SHORTENED c]
      | c2 :: r2 => .esc k c2 :: specEncUnits r2

/-- The bytes of one output unit, using the source's escape layout
(`mkEscape`). -/
def renderUnit : EncUnit → List Nat
  | .safe c => [c]
  | .esc k p => [(mkEscape k p).1, (mkEscape k p).2]

/-- The Unicode scalar value one output unit decodes to. -/
def charOfUnit : EncUnit → Nat
  | .safe c => c
  | .esc k p => 128 + 256 * k + p

/-- The 7-bit values `decode` pushes for one output unit. -/
def pushesOfUnit : EncUnit → List Nat
  | .safe c => [c]
  | .esc k p => if k = 7 then [p] else [ILLEGALS.getD k 0, p]

/-- Modelled from the spec (§4.2 byte layout, claim wording): the two escape
bytes `b1 = 0b110_00010 | (index_field << 2) | payload_bit6` and
`b2 = 0b10_000000 | (payload & 0b0111111)`. -/
def specEscapeBytes (k p : Nat) : List Nat :=
  [0b11000010 ||| (k <<< 2) ||| (p >>> 6), 0b10000000 ||| (p &&& 0b0111111)]

/-- Modelled from the spec (§4.3): the 7-bit values pushed for one scalar
value `c`: `[c]` if `c ≤ 127`; otherwise, with `index_field` the top 3 bits
and `payload` the low 7 bits of the 11-bit value,
`[dangerous_set[index_field], payload]` if `index_field ≠ 7`, else
`[payload]`.  `none` when `dangerous_set[index_field]` does not exist. -/
def charPushes (c : Nat) : Option (List Nat) :=
  if c ≤ 127 then some [c]
  else if c >>> 8 ≠ 7 then (ILLEGALS.get? (c >>> 8)).map (fun d => [d, c &&& 127])
  else some [c &&& 127]

/-- The concatenated pushes of a whole scalar sequence. -/
def decodePushes (cs : List Nat) : Option (List Nat) :=
  (cs.mapM charPushes).map List.flatten

/-- The chunk stream actually produced by the source's `get7` extractor,
observed by iterating it from the initial cursor `(0, 0)`. -/
def get7StreamAux (data : List Nat) : Nat → Nat → Nat → List Nat
  | 0, _, _ => []
  | fuel + 1, i, bit =>
    match get7 data i bit with
    | none => []
    | some (v, i1, b1) => v :: get7StreamAux data fuel i1 b1

/-- The full chunk stream produced by `get7` (with ample fuel). -/
def get7Stream (data : List Nat) : List Nat :=
  get7StreamAux data (8 * data.length + 8) 0 0

/-- The accumulator state of `decode`'s `push7` after `q` chunks of the
original data have been pushed: the top `7q mod 8` bits of byte `⌊7q/8⌋`
held in `cur_byte`, and the first `⌊7q/8⌋` bytes already emitted. -/
def stateAt (data : List Nat) (q : Nat) : Nat × Nat × List Nat :=
  ((data.getD (7 * q / 8) 0 >>> (8 - 7 * q % 8)) <<< (8 - 7 * q % 8),
   7 * q % 8, data.take (7 * q / 8))

/-- Well-formedness of an output unit as produced by `specEncUnits` on 7-bit
chunks: safe chunks are 7-bit, escapes have a 7-bit payload and an index
field that is a real illegal index (`≤ 5`) or the shortened marker `7`. -/
def wfUnit : EncUnit → Prop
  | .safe c => c < 128
  | .esc k p => (k ≤ 5 ∨ k = 7) ∧ p < 128

/-! ## Arithmetic helper lemmas for the bit manipulations -/

theorem mask254_and : ∀ b < 256, 254 &&& b = b / 2 * 2 := by decide
theorem mask127_and : ∀ b < 256, 127 &&& b = b % 128 := by decide
theorem mask63_and : ∀ b < 256, 63 &&& b = b % 64 := by decide
theorem mask31_and : ∀ b < 256, 31 &&& b = b % 32 := by decide
theorem mask15_and : ∀ b < 256, 15 &&& b = b % 16 := by decide
theorem mask7_and : ∀ b < 256, 7 &&& b = b % 8 := by decide
theorem mask3_and : ∀ b < 256, 3 &&& b = b % 4 := by decide
theorem mask1_and : ∀ b < 256, 1 &&& b = b % 2 := by decide
theorem hi65280_and : ∀ b < 256, 65280 &&& b = 0 := by decide
theorem hi32640_and : ∀ b < 256, 32640 &&& b = b / 128 * 128 := by decide
theorem hi16320_and : ∀ b < 256, 16320 &&& b = b / 64 * 64 := by decide
theorem hi8160_and : ∀ b < 256, 8160 &&& b = b / 32 * 32 := by decide
theorem hi4080_and : ∀ b < 256, 4080 &&& b = b / 16 * 16 := by decide
theorem hi2040_and : ∀ b < 256, 2040 &&& b = b / 8 * 8 := by decide
theorem hi1020_and : ∀ b < 256, 1020 &&& b = b / 4 * 4 := by decide
theorem and255_eq (b : Nat) : b &&& 255 = b % 256 := by
  have h := Nat.and_pow_two_sub_one_eq_mod b 8
  norm_num at h
  exact h
theorem and127_eq (b : Nat) : b &&& 127 = b % 128 := by
  have h := Nat.and_pow_two_sub_one_eq_mod b 7
  norm_num at h
  exact h

theorem core_r0 (b1 b2 : Nat) (hb1 : b1 < 256) (hb2 : b2 < 256) :
    ((((254 >>> 0) &&& b1) <<< 0) % 256) >>> 1 = ((b1 * 256 + b2) >>> (9 - 0)) &&& 127 := by
  rw [Nat.shiftRight_zero, Nat.shiftLeft_zero, mask254_and b1 hb1,
    Nat.shiftRight_eq_div_pow, Nat.shiftRight_eq_div_pow, and127_eq]
  omega

theorem core_full_1 (b1 b2 : Nat) (hb1 : b1 < 256) (hb2 : b2 < 256) :
    (((((127 &&& b1) <<< 1) % 256) >>> 1) ||| (((65280 &&& b2) &&& 255) >>> (8 - 0)))
      = ((b1 * 256 + b2) >>> (9 - 1)) &&& 127 := by
  rw [mask127_and b1 hb1, hi65280_and b2 hb2, Nat.shiftLeft_eq,
    Nat.shiftRight_eq_div_pow, Nat.shiftRight_eq_div_pow, Nat.shiftRight_eq_div_pow, and127_eq]
  have e2 : (0 : Nat) &&& 255 = 0 := by decide
  rw [e2]
  have e3 : (0 : Nat) / 2 ^ 8 = 0 := by norm_num
  rw [e3, Nat.or_zero]
  omega

theorem core_full_2 (b1 b2 : Nat) (hb1 : b1 < 256) (hb2 : b2 < 256) :
    (((((63 &&& b1) <<< 2) % 256) >>> 1) ||| (((32640 &&& b2) &&& 255) >>> (8 - 1)))
      = ((b1 * 256 + b2) >>> (9 - 2)) &&& 127 := by
  rw [mask63_and b1 hb1, hi32640_and b2 hb2, and255_eq, Nat.shiftLeft_eq,
    Nat.shiftRight_eq_div_pow, Nat.shiftRight_eq_div_pow, Nat.shiftRight_eq_div_pow, and127_eq]
  have e1 : b1 % 64 * 2 ^ 2 % 256 / 2 ^ 1 = 2 ^ 1 * (b1 % 64) := by omega
  have e2 : b2 / 128 * 128 % 256 / 2 ^ 7 = b2 / 128 := by omega
  rw [e1, e2, ← Nat.mul_add_lt_is_or (by omega : b2 / 128 < 2 ^ 1)]
  omega

theorem core_full_3 (b1 b2 : Nat) (hb1 : b1 < 256) (hb2 : b2 < 256) :
    (((((31 &&& b1) <<< 3) % 256) >>> 1) ||| (((16320 &&& b2) &&& 255) >>> (8 - 2)))
      = ((b1 * 256 + b2) >>> (9 - 3)) &&& 127 := by
  rw [mask31_and b1 hb1, hi16320_and b2 hb2, and255_eq, Nat.shiftLeft_eq,
    Nat.shiftRight_eq_div_pow, Nat.shiftRight_eq_div_pow, Nat.shiftRight_eq_div_pow, and127_eq]
  have e1 : b1 % 32 * 2 ^ 3 % 256 / 2 ^ 1 = 2 ^ 2 * (b1 % 32) := by omega
  have e2 : b2 / 64 * 64 % 256 / 2 ^ 6 = b2 / 64 := by omega
  rw [e1, e2, ← Nat.mul_add_lt_is_or (by omega : b2 / 64 < 2 ^ 2)]
  omega

theorem core_full_4 (b1 b2 : Nat) (hb1 : b1 < 256) (hb2 : b2 < 256) :
    (((((15 &&& b1) <<< 4) % 256) >>> 1) ||| (((8160 &&& b2) &&& 255) >>> (8 - 3)))
      = ((b1 * 256 + b2) >>> (9 - 4)) &&& 127 := by
  rw [mask15_and b1 hb1, hi8160_and b2 hb2, and255_eq, Nat.shiftLeft_eq,
    Nat.shiftRight_eq_div_pow, Nat.shiftRight_eq_div_pow, Nat.shiftRight_eq_div_pow, and127_eq]
  have e1 : b1 % 16 * 2 ^ 4 % 256 / 2 ^ 1 = 2 ^ 3 * (b1 % 16) := by omega
  have e2 : b2 / 32 * 32 % 256 / 2 ^ 5 = b2 / 32 := by omega
  rw [e1, e2, ← Nat.mul_add_lt_is_or (by omega : b2 / 32 < 2 ^ 3)]
  omega

theorem core_full_5 (b1 b2 : Nat) (hb1 : b1 < 256) (hb2 : b2 < 256) :
    (((((7 &&& b1) <<< 5) % 256) >>> 1) ||| (((4080 &&& b2) &&& 255) >>> (8 - 4)))
      = ((b1 * 256 + b2) >>> (9 - 5)) &&& 127 := by
  rw [mask7_and b1 hb1, hi4080_and b2 hb2, and255_eq, Nat.shiftLeft_eq,
    Nat.shiftRight_eq_div_pow, Nat.shiftRight_eq_div_pow, Nat.shiftRight_eq_div_pow, and127_eq]
  have e1 : b1 % 8 * 2 ^ 5 % 256 / 2 ^ 1 = 2 ^ 4 * (b1 % 8) := by omega
  have e2 : b2 / 16 * 16 % 256 / 2 ^ 4 = b2 / 16 := by omega
  rw [e1, e2, ← Nat.mul_add_lt_is_or (by omega : b2 / 16 < 2 ^ 4)]
  omega

theorem core_full_6 (b1 b2 : Nat) (hb1 : b1 < 256) (hb2 : b2 < 256) :
    (((((3 &&& b1) <<< 6) % 256) >>> 1) ||| (((2040 &&& b2) &&& 255) >>> (8 - 5)))
      = ((b1 * 256 + b2) >>> (9 - 6)) &&& 127 := by
  rw [mask3_and b1 hb1, hi2040_and b2 hb2, and255_eq, Nat.shiftLeft_eq,
    Nat.shiftRight_eq_div_pow, Nat.shiftRight_eq_div_pow, Nat.shiftRight_eq_div_pow, and127_eq]
  have e1 : b1 % 4 * 2 ^ 6 % 256 / 2 ^ 1 = 2 ^ 5 * (b1 % 4) := by omega
  have e2 : b2 / 8 * 8 % 256 / 2 ^ 3 = b2 / 8 := by omega
  rw [e1, e2, ← Nat.mul_add_lt_is_or (by omega : b2 / 8 < 2 ^ 5)]
  omega

theorem core_full_7 (b1 b2 : Nat) (hb1 : b1 < 256) (hb2 : b2 < 256) :
    (((((1 &&& b1) <<< 7) % 256) >>> 1) ||| (((1020 &&& b2) &&& 255) >>> (8 - 6)))
      = ((b1 * 256 + b2) >>> (9 - 7)) &&& 127 := by
  rw [mask1_and b1 hb1, hi1020_and b2 hb2, and255_eq, Nat.shiftLeft_eq,
    Nat.shiftRight_eq_div_pow, Nat.shiftRight_eq_div_pow, Nat.shiftRight_eq_div_pow, and127_eq]
  have e1 : b1 % 2 * 2 ^ 7 % 256 / 2 ^ 1 = 2 ^ 6 * (b1 % 2) := by omega
  have e2 : b2 / 4 * 4 % 256 / 2 ^ 2 = b2 / 4 := by omega
  rw [e1, e2, ← Nat.mul_add_lt_is_or (by omega : b2 / 4 < 2 ^ 6)]
  omega



theorem core_part_1 (b1 : Nat) (hb1 : b1 < 256) :
    ((((127 &&& b1) <<< 1) % 256) >>> 1 = ((b1 * 256 + 0) >>> (9 - 1)) &&& 127) := by
  rw [mask127_and b1 hb1, Nat.shiftLeft_eq, Nat.shiftRight_eq_div_pow,
    Nat.shiftRight_eq_div_pow, and127_eq]
  omega

theorem core_part_2 (b1 : Nat) (hb1 : b1 < 256) :
    ((((63 &&& b1) <<< 2) % 256) >>> 1 = ((b1 * 256 + 0) >>> (9 - 2)) &&& 127) := by
  rw [mask63_and b1 hb1, Nat.shiftLeft_eq, Nat.shiftRight_eq_div_pow,
    Nat.shiftRight_eq_div_pow, and127_eq]
  omega

theorem core_part_3 (b1 : Nat) (hb1 : b1 < 256) :
    ((((31 &&& b1) <<< 3) % 256) >>> 1 = ((b1 * 256 + 0) >>> (9 - 3)) &&& 127) := by
  rw [mask31_and b1 hb1, Nat.shiftLeft_eq, Nat.shiftRight_eq_div_pow,
    Nat.shiftRight_eq_div_pow, and127_eq]
  omega

theorem core_part_4 (b1 : Nat) (hb1 : b1 < 256) :
    ((((15 &&& b1) <<< 4) % 256) >>> 1 = ((b1 * 256 + 0) >>> (9 - 4)) &&& 127) := by
  rw [mask15_and b1 hb1, Nat.shiftLeft_eq, Nat.shiftRight_eq_div_pow,
    Nat.shiftRight_eq_div_pow, and127_eq]
  omega

theorem core_part_5 (b1 : Nat) (hb1 : b1 < 256) :
    ((((7 &&& b1) <<< 5) % 256) >>> 1 = ((b1 * 256 + 0) >>> (9 - 5)) &&& 127) := by
  rw [mask7_and b1 hb1, Nat.shiftLeft_eq, Nat.shiftRight_eq_div_pow,
    Nat.shiftRight_eq_div_pow, and127_eq]
  omega

theorem core_part_6 (b1 : Nat) (hb1 : b1 < 256) :
    ((((3 &&& b1) <<< 6) % 256) >>> 1 = ((b1 * 256 + 0) >>> (9 - 6)) &&& 127) := by
  rw [mask3_and b1 hb1, Nat.shiftLeft_eq, Nat.shiftRight_eq_div_pow,
    Nat.shiftRight_eq_div_pow, and127_eq]
  omega

theorem core_part_7 (b1 : Nat) (hb1 : b1 < 256) :
    ((((1 &&& b1) <<< 7) % 256) >>> 1 = ((b1 * 256 + 0) >>> (9 - 7)) &&& 127) := by
  rw [mask1_and b1 hb1, Nat.shiftLeft_eq, Nat.shiftRight_eq_div_pow,
    Nat.shiftRight_eq_div_pow, and127_eq]
  omega

theorem get7_step (data : List Nat) (hdata : ∀ b ∈ data, b < 256) (i r : Nat)
    (hi : i < data.length) (hr : r < 8) :
    get7 data i r =
      some ((((data.getD i 0) * 256 + data.getD (i + 1) 0) >>> (9 - r)) &&& 127,
        if r = 0 then (i, 7) else (i + 1, r - 1)) := by
  have hb1 : data.getD i 0 < 256 := by
    rw [List.getD_eq_getElem data 0 hi]
    exact hdata _ (List.getElem_mem hi)
  have hb2 : data.getD (i + 1) 0 < 256 := by
    by_cases h : i + 1 < data.length
    · rw [List.getD_eq_getElem data 0 h]
      exact hdata _ (List.getElem_mem h)
    · rw [List.getD_eq_default data 0 (by omega)]
      norm_num
  unfold get7
  rw [if_neg (by omega)]
  by_cases hr0 : r + 7 < 8
  · have hr9 : r = 0 := by omega
    subst hr9
    rw [if_pos hr0, if_pos rfl]
    exact congrArg some (Prod.ext (core_r0 _ _ hb1 hb2) rfl)
  · have hr1 : 1 ≤ r := by omega
    rw [if_neg hr0, if_neg (show ¬ r = 0 by omega)]
    by_cases h2 : i + 1 ≥ data.length
    · rw [if_pos h2, List.getD_eq_default data 0 (show data.length ≤ i + 1 by omega)]
      interval_cases r
      · exact congrArg some (Prod.ext (core_part_1 _ hb1) rfl)
      · exact congrArg some (Prod.ext (core_part_2 _ hb1) rfl)
      · exact congrArg some (Prod.ext (core_part_3 _ hb1) rfl)
      · exact congrArg some (Prod.ext (core_part_4 _ hb1) rfl)
      · exact congrArg some (Prod.ext (core_part_5 _ hb1) rfl)
      · exact congrArg some (Prod.ext (core_part_6 _ hb1) rfl)
      · exact congrArg some (Prod.ext (core_part_7 _ hb1) rfl)
    · rw [if_neg h2]
      interval_cases r
      · dsimp only
        rw [if_pos (show (1:Nat) + 7 - 8 < 8 by norm_num)]
        exact congrArg some (Prod.ext (core_full_1 _ _ hb1 hb2) rfl)
      · dsimp only
        rw [if_pos (show (2:Nat) + 7 - 8 < 8 by norm_num)]
        exact congrArg some (Prod.ext (core_full_2 _ _ hb1 hb2) rfl)
      · dsimp only
        rw [if_pos (show (3:Nat) + 7 - 8 < 8 by norm_num)]
        exact congrArg some (Prod.ext (core_full_3 _ _ hb1 hb2) rfl)
      · dsimp only
        rw [if_pos (show (4:Nat) + 7 - 8 < 8 by norm_num)]
        exact congrArg some (Prod.ext (core_full_4 _ _ hb1 hb2) rfl)
      · dsimp only
        rw [if_pos (show (5:Nat) + 7 - 8 < 8 by norm_num)]
        exact congrArg some (Prod.ext (core_full_5 _ _ hb1 hb2) rfl)
      · dsimp only
        rw [if_pos (show (6:Nat) + 7 - 8 < 8 by norm_num)]
        exact congrArg some (Prod.ext (core_full_6 _ _ hb1 hb2) rfl)
      · dsimp only
        rw [if_pos (show (7:Nat) + 7 - 8 < 8 by norm_num)]
        exact congrArg some (Prod.ext (core_full_7 _ _ hb1 hb2) rfl)

theorem specChunk_lt (data : List Nat) (t : Nat) : specChunk data t < 128 := by
  have h : specChunk data t ≤ 127 := Nat.and_le_right
  omega

theorem get7_step_t (data : List Nat) (hdata : ∀ b ∈ data, b < 256) (t : Nat)
    (ht : t < numChunks data.length) :
    get7 data (7 * t / 8) (7 * t % 8) =
      some (specChunk data t, 7 * (t + 1) / 8, 7 * (t + 1) % 8) := by
  have hi : 7 * t / 8 < data.length := by
    unfold numChunks at ht
    omega
  have hr : 7 * t % 8 < 8 := Nat.mod_lt _ (by norm_num)
  rw [get7_step data hdata _ _ hi hr]
  refine congrArg some (Prod.ext rfl ?_)
  by_cases h0 : 7 * t % 8 = 0
  · rw [if_pos h0]
    have e1 : 7 * (t + 1) / 8 = 7 * t / 8 := by omega
    have e2 : 7 * (t + 1) % 8 = 7 := by omega
    rw [e1, e2]
  · rw [if_neg h0]
    have e1 : 7 * (t + 1) / 8 = 7 * t / 8 + 1 := by omega
    have e2 : 7 * (t + 1) % 8 = 7 * t % 8 - 1 := by omega
    rw [e1, e2]

theorem get7_none (data : List Nat) (t : Nat)
    (ht : ¬ t < numChunks data.length) :
    get7 data (7 * t / 8) (7 * t % 8) = none := by
  unfold get7
  rw [if_pos ?_]
  unfold numChunks at ht
  omega

theorem illegal_findIdx_spec {c k : Nat}
    (h : List.findIdx? (fun x => x = c) ILLEGALS = some k) :
    k ≤ 5 ∧ ILLEGALS.getD k 0 = c := by
  rw [List.findIdx?_eq_some_iff_getElem] at h
  obtain ⟨hk, hp, -⟩ := h
  have hk6 : k < 6 := by simpa [ILLEGALS] using hk
  have hc : ILLEGALS[k] = c := by simpa using hp
  refine ⟨by omega, ?_⟩
  rw [List.getD_eq_getElem _ _ (by simpa [ILLEGALS] using hk)]
  exact hc

theorem chunkSuffix_of_lt {data : List Nat} {t : Nat}
    (h : t < numChunks data.length) :
    chunkSuffix data t = specChunk data t :: chunkSuffix data (t + 1) := by
  conv_lhs => rw [chunkSuffix]
  rw [dif_pos h]

theorem chunkSuffix_of_ge {data : List Nat} {t : Nat}
    (h : ¬ t < numChunks data.length) :
    chunkSuffix data t = [] := by
  conv_lhs => rw [chunkSuffix]
  rw [dif_neg h]

theorem specEncUnits_nil : specEncUnits [] = [] := rfl

theorem specEncUnits_safe {c : Nat} (rest : List Nat)
    (h : List.findIdx? (fun x => x = c) ILLEGALS = none) :
    specEncUnits (c :: rest) = .safe c :: specEncUnits rest := by
  rw [specEncUnits, h]

theorem specEncUnits_esc_last {c k : Nat}
    (h : List.findIdx? (fun x => x = c) ILLEGALS = some k) :
    specEncUnits [c] = [.esc SHORTENED c] := by
  rw [specEncUnits, h]

theorem specEncUnits_esc {c k c2 : Nat} (r2 : List Nat)
    (h : List.findIdx? (fun x => x = c) ILLEGALS = some k) :
    specEncUnits (c :: c2 :: r2) = .esc k c2 :: specEncUnits r2 := by
  rw [specEncUnits, h]

theorem encodeLoop_eq (data : List Nat) (hdata : ∀ b ∈ data, b < 256) :
    ∀ (fuel t : Nat) (acc : List Nat), numChunks data.length - t < fuel →
    encodeLoop data fuel (7 * t / 8) (7 * t % 8) acc
      = acc ++ (specEncUnits (chunkSuffix data t)).flatMap renderUnit := by
  intro fuel
  induction fuel with
  | zero => intro t acc h; omega
  | succ fuel ih =>
    intro t acc hfuel
    by_cases ht : t < numChunks data.length
    · rw [show encodeLoop data (fuel + 1) (7 * t / 8) (7 * t % 8) acc =
        match get7 data (7 * t / 8) (7 * t % 8) with
        | none => acc
        | some (bits, i1, bit1) =>
          match List.findIdx? (fun x => x = bits) ILLEGALS with
          | none => encodeLoop data fuel i1 bit1 (acc ++ [bits])
          | some illegalIndex =>
            match get7 data i1 bit1 with
            | none =>
              encodeLoop data fuel i1 bit1
                (acc ++ [(mkEscape SHORTENED bits).1, (mkEscape SHORTENED bits).2])
            | some (nextBits, i2, bit2) =>
              encodeLoop data fuel i2 bit2
                (acc ++ [(mkEscape illegalIndex nextBits).1, (mkEscape illegalIndex nextBits).2])
          from rfl]
      rw [get7_step_t data hdata t ht, chunkSuffix_of_lt ht]
      cases hfind : List.findIdx? (fun x => x = specChunk data t) ILLEGALS with
      | none =>
        dsimp only
        rw [hfind]
        dsimp only
        rw [ih (t + 1) (acc ++ [specChunk data t]) (by omega)]
        rw [specEncUnits_safe _ hfind]
        simp [renderUnit]
      | some k =>
        dsimp only
        rw [hfind]
        dsimp only
        by_cases ht1 : t + 1 < numChunks data.length
        · rw [get7_step_t data hdata (t + 1) ht1]
          dsimp only
          rw [ih (t + 2) _ (by omega)]
          rw [chunkSuffix_of_lt ht1, specEncUnits_esc _ hfind]
          simp [renderUnit]
        · rw [get7_none data (t + 1) ht1]
          dsimp only
          rw [ih (t + 1) _ (by omega)]
          rw [chunkSuffix_of_ge ht1, specEncUnits_esc_last hfind]
          simp [renderUnit, specEncUnits_nil]
    · rw [show encodeLoop data (fuel + 1) (7 * t / 8) (7 * t % 8) acc =
        match get7 data (7 * t / 8) (7 * t % 8) with
        | none => acc
        | some (bits, i1, bit1) =>
          match List.findIdx? (fun x => x = bits) ILLEGALS with
          | none => encodeLoop data fuel i1 bit1 (acc ++ [bits])
          | some illegalIndex =>
            match get7 data i1 bit1 with
            | none =>
              encodeLoop data fuel i1 bit1
                (acc ++ [(mkEscape SHORTENED bits).1, (mkEscape SHORTENED bits).2])
            | some (nextBits, i2, bit2) =>
              encodeLoop data fuel i2 bit2
                (acc ++ [(mkEscape illegalIndex nextBits).1, (mkEscape illegalIndex nextBits).2])
          from rfl]
      rw [get7_none data t ht, chunkSuffix_of_ge ht]
      simp [specEncUnits_nil]


theorem chunkSuffix_eq_drop (data : List Nat) : ∀ t, chunkSuffix data t = (chunkList data).drop t := by
  have hlen : (chunkList data).length = numChunks data.length := by
    simp [chunkList]
  have H : ∀ (n t : Nat), numChunks data.length - t = n →
      chunkSuffix data t = (chunkList data).drop t := by
    intro n
    induction n with
    | zero =>
      intro t hn
      rw [chunkSuffix_of_ge (by omega), List.drop_eq_nil_of_le (by omega)]
    | succ n ih =>
      intro t hn
      have ht : t < numChunks data.length := by omega
      rw [chunkSuffix_of_lt ht, ih (t + 1) (by omega),
        @List.drop_eq_getElem_cons _ t (chunkList data) (by omega)]
      congr 1
      simp [chunkList]
  exact fun t => H _ t rfl

theorem mkEscape_eq : ∀ k < 8, ∀ p < 128,
    (mkEscape k p).1 = 194 + 4 * k + p / 64 ∧ (mkEscape k p).2 = 128 + p % 64 := by decide

theorem escChar_fields : ∀ k < 8, ∀ p < 128,
    ((128 + 256 * k + p) >>> 8) &&& 7 = k ∧ (128 + 256 * k + p) &&& 127 = p := by decide

theorem illegals_getq : ∀ k < 6, ILLEGALS.get? k = some (ILLEGALS.getD k 0) := by decide

theorem utf8ParseAux_units : ∀ (units : List EncUnit) (fuel : Nat),
    (∀ u ∈ units, wfUnit u) →
    (units.flatMap renderUnit).length < fuel →
    utf8ParseAux fuel (units.flatMap renderUnit) = some (units.map charOfUnit) := by
  intro units
  induction units with
  | nil =>
    intro fuel _ hfuel
    match fuel, hfuel with
    | fuel + 1, _ => rfl
  | cons u rest ih =>
    intro fuel hwf hfuel
    have hu : wfUnit u := hwf u (by simp)
    have hrest := fun v hv => hwf v (List.mem_cons_of_mem _ hv)
    cases u with
    | safe c =>
      have hc : c < 128 := hu
      have hlen : (rest.flatMap renderUnit).length + 1
          = ((EncUnit.safe c :: rest).flatMap renderUnit).length := by
        simp [renderUnit]
      match fuel, hfuel with
      | fuel + 1, hfuel =>
        show (match utf8DecodeFirst (c :: rest.flatMap renderUnit) with
          | some (c, rest) => (utf8ParseAux fuel rest).map (fun cs => c :: cs)
          | none => if c :: rest.flatMap renderUnit = [] then some [] else none)
          = some (c :: rest.map charOfUnit)
        rw [show utf8DecodeFirst (c :: rest.flatMap renderUnit)
            = some (c, rest.flatMap renderUnit) by
          simp only [utf8DecodeFirst]
          rw [if_pos (show c < 0x80 by omega)]]
        dsimp only
        rw [ih fuel hrest (by omega)]
        rfl
    | esc k p =>
      obtain ⟨hk, hp⟩ := hu
      have hk8 : k < 8 := by omega
      obtain ⟨h1, h2⟩ := mkEscape_eq k hk8 p hp
      have hlen : (rest.flatMap renderUnit).length + 2
          = ((EncUnit.esc k p :: rest).flatMap renderUnit).length := by
        simp [renderUnit]
      match fuel, hfuel with
      | fuel + 1, hfuel =>
        show (match utf8DecodeFirst
            ((mkEscape k p).1 :: (mkEscape k p).2 :: rest.flatMap renderUnit) with
          | some (c, rest) => (utf8ParseAux fuel rest).map (fun cs => c :: cs)
          | none => if (mkEscape k p).1 :: (mkEscape k p).2 :: rest.flatMap renderUnit = []
              then some [] else none)
          = some ((128 + 256 * k + p) :: rest.map charOfUnit)
        rw [show utf8DecodeFirst
            ((mkEscape k p).1 :: (mkEscape k p).2 :: rest.flatMap renderUnit)
            = some (128 + 256 * k + p, rest.flatMap renderUnit) by
          rw [h1, h2]
          simp only [utf8DecodeFirst]
          rw [if_neg (show ¬ 194 + 4 * k + p / 64 < 0x80 by omega),
            if_neg (show ¬ 194 + 4 * k + p / 64 < 0xC2 by omega),
            if_pos (show 194 + 4 * k + p / 64 < 0xE0 by omega)]
          rw [if_pos (show 0x80 ≤ 128 + p % 64 ∧ 128 + p % 64 ≤ 0xBF by omega)]
          refine congrArg some (Prod.ext ?_ rfl)
          show (194 + 4 * k + p / 64 - 0xC0) * 64 + (128 + p % 64 - 0x80) = 128 + 256 * k + p
          omega]
        dsimp only
        rw [ih fuel hrest (by omega)]
        rfl

theorem utf8Parse_units (units : List EncUnit) (hwf : ∀ u ∈ units, wfUnit u) :
    utf8Parse (units.flatMap renderUnit) = some (units.map charOfUnit) :=
  utf8ParseAux_units units _ hwf (by omega)

theorem decodeLoop_units : ∀ (units : List EncUnit) (st : Nat × Nat × List Nat),
    (∀ u ∈ units, wfUnit u) →
    decodeLoop (units.map charOfUnit) st
      = some ((units.flatMap pushesOfUnit).foldl push7 st) := by
  intro units
  induction units with
  | nil => intro st _; rfl
  | cons u rest ih =>
    intro st hwf
    have hu : wfUnit u := hwf u (by simp)
    have hrest := fun v hv => hwf v (List.mem_cons_of_mem _ hv)
    cases u with
    | safe c =>
      have hc : c < 128 := hu
      show decodeLoop (c :: rest.map charOfUnit) st
        = some (List.foldl push7 st (c :: rest.flatMap pushesOfUnit))
      conv_lhs => rw [decodeLoop]
      rw [if_neg (show ¬ c > 127 by omega), ih _ hrest]
      rfl
    | esc k p =>
      obtain ⟨hk, hp⟩ := hu
      have hk8 : k < 8 := by omega
      obtain ⟨hf1, hf2⟩ := escChar_fields k hk8 p hp
      show decodeLoop ((128 + 256 * k + p) :: rest.map charOfUnit) st
        = some (List.foldl push7 st
            ((if k = 7 then [p] else [ILLEGALS.getD k 0, p]) ++ rest.flatMap pushesOfUnit))
      conv_lhs => rw [decodeLoop]
      rw [if_pos (show 128 + 256 * k + p > 127 by omega)]
      dsimp only
      rw [hf1, hf2]
      rcases hk with hk5 | hk7
      · rw [if_pos (show k ≠ SHORTENED by simp only [SHORTENED]; omega),
          illegals_getq k (by omega)]
        dsimp only
        rw [ih _ hrest, if_neg (show ¬ k = 7 by omega)]
        rfl
      · subst hk7
        rw [if_neg (show ¬ (7 : Nat) ≠ SHORTENED by simp [SHORTENED]),
          ih _ hrest, if_pos rfl]
        rfl

theorem units_pushes_aux : ∀ (n : Nat) (l : List Nat), l.length ≤ n →
    (specEncUnits l).flatMap pushesOfUnit = l := by
  intro n
  induction n with
  | zero =>
    intro l hl
    have hl0 : l = [] := List.eq_nil_of_length_eq_zero (by omega)
    subst hl0
    rfl
  | succ n ih =>
    intro l hl
    match l with
    | [] => rw [specEncUnits_nil]; rfl
    | c :: rest =>
      cases hfind : List.findIdx? (fun x => x = c) ILLEGALS with
      | none =>
        rw [specEncUnits_safe _ hfind]
        simp only [List.flatMap_cons, pushesOfUnit, List.cons_append, List.nil_append]
        rw [ih rest (by simpa using hl)]
      | some k =>
        obtain ⟨hk5, hgetd⟩ := illegal_findIdx_spec hfind
        match rest with
        | [] =>
          rw [specEncUnits_esc_last hfind]
          simp [pushesOfUnit, SHORTENED]
        | c2 :: r2 =>
          rw [specEncUnits_esc _ hfind]
          simp only [List.flatMap_cons, pushesOfUnit, List.cons_append, List.nil_append]
          rw [if_neg (by omega), hgetd]
          simp only [List.cons_append, List.nil_append]
          rw [ih r2 (by simp at hl; omega)]

theorem units_pushes (l : List Nat) :
    (specEncUnits l).flatMap pushesOfUnit = l :=
  units_pushes_aux l.length l (Nat.le_refl _)

theorem units_wf_aux : ∀ (n : Nat) (l : List Nat), l.length ≤ n →
    (∀ c ∈ l, c < 128) → ∀ u ∈ specEncUnits l, wfUnit u := by
  intro n
  induction n with
  | zero =>
    intro l hl _
    have hl0 : l = [] := List.eq_nil_of_length_eq_zero (by omega)
    subst hl0
    simp [specEncUnits_nil]
  | succ n ih =>
    intro l hl hc
    match l with
    | [] => rw [specEncUnits_nil]; simp
    | c :: rest =>
      cases hfind : List.findIdx? (fun x => x = c) ILLEGALS with
      | none =>
        rw [specEncUnits_safe _ hfind]
        intro u hu
        rcases List.mem_cons.mp hu with h | h
        · subst h; exact hc c (by simp)
        · exact ih rest (by simpa using hl) (fun x hx => hc x (by simp [hx])) u h
      | some k =>
        obtain ⟨hk5, hgetd⟩ := illegal_findIdx_spec hfind
        match rest with
        | [] =>
          rw [specEncUnits_esc_last hfind]
          intro u hu
          simp at hu
          subst hu
          exact ⟨Or.inr rfl, hc c (by simp)⟩
        | c2 :: r2 =>
          rw [specEncUnits_esc _ hfind]
          intro u hu
          rcases List.mem_cons.mp hu with h | h
          · subst h
            exact ⟨Or.inl hk5, hc c2 (by simp)⟩
          · exact ih r2 (by simp at hl; omega)
              (fun x hx => hc x (by simp [hx])) u h

theorem core_push_0 (b1 b2 : Nat) (hb1 : b1 < 256) (hb2 : b2 < 256) :
    ((b1 >>> (8 - 0)) <<< (8 - 0)) |||
        (((((b1 * 256 + b2) >>> (9 - 0)) &&& 127) <<< 1) % 256) >>> 0 = (b1 >>> 1) <<< 1 := by
  simp only [Nat.shiftRight_eq_div_pow, Nat.shiftLeft_eq, and127_eq]
  have hA : b1 / 2 ^ (8 - 0) * 2 ^ (8 - 0) = 0 := by omega
  rw [hA, Nat.zero_or]
  omega

theorem core_push_1 (b1 b2 : Nat) (hb1 : b1 < 256) (hb2 : b2 < 256) :
    (((b1 >>> (8 - 1)) <<< (8 - 1)) |||
        (((((b1 * 256 + b2) >>> (9 - 1)) &&& 127) <<< 1) % 256) >>> 1 = b1)
    ∧ ((((((b1 * 256 + b2) >>> (9 - 1)) &&& 127) <<< 1) % 256) <<< (8 - 1)) % 256
        = (b2 >>> (9 - 1)) <<< (9 - 1) := by
  constructor
  · simp only [Nat.shiftRight_eq_div_pow, Nat.shiftLeft_eq, and127_eq]
    have hA : b1 / 2 ^ (8 - 1) * 2 ^ (8 - 1) = 2 ^ (8 - 1) * (b1 / 2 ^ (8 - 1)) := by
      omega
    have hB : (b1 * 256 + b2) / 2 ^ (9 - 1) % 128 * 2 ^ 1 % 256 / 2 ^ 1
        = b1 % 2 ^ (8 - 1) := by omega
    rw [hA, hB, ← Nat.mul_add_lt_is_or (show b1 % 2 ^ (8 - 1) < 2 ^ (8 - 1) by omega)]
    omega
  · simp only [Nat.shiftRight_eq_div_pow, Nat.shiftLeft_eq, and127_eq]
    omega

theorem core_push_2 (b1 b2 : Nat) (hb1 : b1 < 256) (hb2 : b2 < 256) :
    (((b1 >>> (8 - 2)) <<< (8 - 2)) |||
        (((((b1 * 256 + b2) >>> (9 - 2)) &&& 127) <<< 1) % 256) >>> 2 = b1)
    ∧ ((((((b1 * 256 + b2) >>> (9 - 2)) &&& 127) <<< 1) % 256) <<< (8 - 2)) % 256
        = (b2 >>> (9 - 2)) <<< (9 - 2) := by
  constructor
  · simp only [Nat.shiftRight_eq_div_pow, Nat.shiftLeft_eq, and127_eq]
    have hA : b1 / 2 ^ (8 - 2) * 2 ^ (8 - 2) = 2 ^ (8 - 2) * (b1 / 2 ^ (8 - 2)) := by
      omega
    have hB : (b1 * 256 + b2) / 2 ^ (9 - 2) % 128 * 2 ^ 1 % 256 / 2 ^ 2
        = b1 % 2 ^ (8 - 2) := by omega
    rw [hA, hB, ← Nat.mul_add_lt_is_or (show b1 % 2 ^ (8 - 2) < 2 ^ (8 - 2) by omega)]
    omega
  · simp only [Nat.shiftRight_eq_div_pow, Nat.shiftLeft_eq, and127_eq]
    omega

theorem core_push_3 (b1 b2 : Nat) (hb1 : b1 < 256) (hb2 : b2 < 256) :
    (((b1 >>> (8 - 3)) <<< (8 - 3)) |||
        (((((b1 * 256 + b2) >>> (9 - 3)) &&& 127) <<< 1) % 256) >>> 3 = b1)
    ∧ ((((((b1 * 256 + b2) >>> (9 - 3)) &&& 127) <<< 1) % 256) <<< (8 - 3)) % 256
        = (b2 >>> (9 - 3)) <<< (9 - 3) := by
  constructor
  · simp only [Nat.shiftRight_eq_div_pow, Nat.shiftLeft_eq, and127_eq]
    have hA : b1 / 2 ^ (8 - 3) * 2 ^ (8 - 3) = 2 ^ (8 - 3) * (b1 / 2 ^ (8 - 3)) := by
      omega
    have hB : (b1 * 256 + b2) / 2 ^ (9 - 3) % 128 * 2 ^ 1 % 256 / 2 ^ 3
        = b1 % 2 ^ (8 - 3) := by omega
    rw [hA, hB, ← Nat.mul_add_lt_is_or (show b1 % 2 ^ (8 - 3) < 2 ^ (8 - 3) by omega)]
    omega
  · simp only [Nat.shiftRight_eq_div_pow, Nat.shiftLeft_eq, and127_eq]
    omega

theorem core_push_4 (b1 b2 : Nat) (hb1 : b1 < 256) (hb2 : b2 < 256) :
    (((b1 >>> (8 - 4)) <<< (8 - 4)) |||
        (((((b1 * 256 + b2) >>> (9 - 4)) &&& 127) <<< 1) % 256) >>> 4 = b1)
    ∧ ((((((b1 * 256 + b2) >>> (9 - 4)) &&& 127) <<< 1) % 256) <<< (8 - 4)) % 256
        = (b2 >>> (9 - 4)) <<< (9 - 4) := by
  constructor
  · simp only [Nat.shiftRight_eq_div_pow, Nat.shiftLeft_eq, and127_eq]
    have hA : b1 / 2 ^ (8 - 4) * 2 ^ (8 - 4) = 2 ^ (8 - 4) * (b1 / 2 ^ (8 - 4)) := by
      omega
    have hB : (b1 * 256 + b2) / 2 ^ (9 - 4) % 128 * 2 ^ 1 % 256 / 2 ^ 4
        = b1 % 2 ^ (8 - 4) := by omega
    rw [hA, hB, ← Nat.mul_add_lt_is_or (show b1 % 2 ^ (8 - 4) < 2 ^ (8 - 4) by omega)]
    omega
  · simp only [Nat.shiftRight_eq_div_pow, Nat.shiftLeft_eq, and127_eq]
    omega

theorem core_push_5 (b1 b2 : Nat) (hb1 : b1 < 256) (hb2 : b2 < 256) :
    (((b1 >>> (8 - 5)) <<< (8 - 5)) |||
        (((((b1 * 256 + b2) >>> (9 - 5)) &&& 127) <<< 1) % 256) >>> 5 = b1)
    ∧ ((((((b1 * 256 + b2) >>> (9 - 5)) &&& 127) <<< 1) % 256) <<< (8 - 5)) % 256
        = (b2 >>> (9 - 5)) <<< (9 - 5) := by
  constructor
  · simp only [Nat.shiftRight_eq_div_pow, Nat.shiftLeft_eq, and127_eq]
    have hA : b1 / 2 ^ (8 - 5) * 2 ^ (8 - 5) = 2 ^ (8 - 5) * (b1 / 2 ^ (8 - 5)) := by
      omega
    have hB : (b1 * 256 + b2) / 2 ^ (9 - 5) % 128 * 2 ^ 1 % 256 / 2 ^ 5
        = b1 % 2 ^ (8 - 5) := by omega
    rw [hA, hB, ← Nat.mul_add_lt_is_or (show b1 % 2 ^ (8 - 5) < 2 ^ (8 - 5) by omega)]
    omega
  · simp only [Nat.shiftRight_eq_div_pow, Nat.shiftLeft_eq, and127_eq]
    omega

theorem core_push_6 (b1 b2 : Nat) (hb1 : b1 < 256) (hb2 : b2 < 256) :
    (((b1 >>> (8 - 6)) <<< (8 - 6)) |||
        (((((b1 * 256 + b2) >>> (9 - 6)) &&& 127) <<< 1) % 256) >>> 6 = b1)
    ∧ ((((((b1 * 256 + b2) >>> (9 - 6)) &&& 127) <<< 1) % 256) <<< (8 - 6)) % 256
        = (b2 >>> (9 - 6)) <<< (9 - 6) := by
  constructor
  · simp only [Nat.shiftRight_eq_div_pow, Nat.shiftLeft_eq, and127_eq]
    have hA : b1 / 2 ^ (8 - 6) * 2 ^ (8 - 6) = 2 ^ (8 - 6) * (b1 / 2 ^ (8 - 6)) := by
      omega
    have hB : (b1 * 256 + b2) / 2 ^ (9 - 6) % 128 * 2 ^ 1 % 256 / 2 ^ 6
        = b1 % 2 ^ (8 - 6) := by omega
    rw [hA, hB, ← Nat.mul_add_lt_is_or (show b1 % 2 ^ (8 - 6) < 2 ^ (8 - 6) by omega)]
    omega
  · simp only [Nat.shiftRight_eq_div_pow, Nat.shiftLeft_eq, and127_eq]
    omega

theorem core_push_7 (b1 b2 : Nat) (hb1 : b1 < 256) (hb2 : b2 < 256) :
    (((b1 >>> (8 - 7)) <<< (8 - 7)) |||
        (((((b1 * 256 + b2) >>> (9 - 7)) &&& 127) <<< 1) % 256) >>> 7 = b1)
    ∧ ((((((b1 * 256 + b2) >>> (9 - 7)) &&& 127) <<< 1) % 256) <<< (8 - 7)) % 256
        = (b2 >>> (9 - 7)) <<< (9 - 7) := by
  constructor
  · simp only [Nat.shiftRight_eq_div_pow, Nat.shiftLeft_eq, and127_eq]
    have hA : b1 / 2 ^ (8 - 7) * 2 ^ (8 - 7) = 2 ^ (8 - 7) * (b1 / 2 ^ (8 - 7)) := by
      omega
    have hB : (b1 * 256 + b2) / 2 ^ (9 - 7) % 128 * 2 ^ 1 % 256 / 2 ^ 7
        = b1 % 2 ^ (8 - 7) := by omega
    rw [hA, hB, ← Nat.mul_add_lt_is_or (show b1 % 2 ^ (8 - 7) < 2 ^ (8 - 7) by omega)]
    omega
  · simp only [Nat.shiftRight_eq_div_pow, Nat.shiftLeft_eq, and127_eq]
    omega

theorem take_succ_getD (data : List Nat) (k : Nat) (hk : k < data.length) :
    data.take (k + 1) = data.take k ++ [data.getD k 0] := by
  rw [List.take_succ]
  congr 1
  rw [List.getElem?_eq_getElem hk, List.getD_eq_getElem data 0 hk]
  rfl

theorem push7_step_km (data : List Nat) (hdata : ∀ b ∈ data, b < 256) (k m : Nat)
    (hk : k < data.length) (hm : m < 8) :
    push7 ((data.getD k 0 >>> (8 - m)) <<< (8 - m), m, data.take k)
        (((data.getD k 0 * 256 + data.getD (k + 1) 0) >>> (9 - m)) &&& 127)
      = if m = 0 then ((data.getD k 0 >>> 1) <<< 1, 7, data.take k)
        else ((data.getD (k + 1) 0 >>> (9 - m)) <<< (9 - m), m - 1, data.take (k + 1)) := by
  have hb1 : data.getD k 0 < 256 := by
    rw [List.getD_eq_getElem data 0 hk]
    exact hdata _ (List.getElem_mem hk)
  have hb2 : data.getD (k + 1) 0 < 256 := by
    by_cases h : k + 1 < data.length
    · rw [List.getD_eq_getElem data 0 h]
      exact hdata _ (List.getElem_mem h)
    · rw [List.getD_eq_default data 0 (by omega)]
      norm_num
  have htake := take_succ_getD data k hk
  interval_cases m
  · rw [if_pos rfl]
    rw [show push7 ((data.getD k 0 >>> (8 - 0)) <<< (8 - 0), 0, data.take k)
        (((data.getD k 0 * 256 + data.getD (k + 1) 0) >>> (9 - 0)) &&& 127)
      = (((data.getD k 0 >>> (8 - 0)) <<< (8 - 0)) |||
          (((((data.getD k 0 * 256 + data.getD (k + 1) 0) >>> (9 - 0)) &&& 127) <<< 1) % 256)
            >>> 0, 0 + 7, data.take k) from by
      simp only [push7]
      rw [if_neg (show ¬ 0 + 7 ≥ 8 by omega)]]
    rw [core_push_0 _ _ hb1 hb2]
  · rw [if_neg (show ¬ (1 : Nat) = 0 by omega)]
    rw [show push7 ((data.getD k 0 >>> (8 - 1)) <<< (8 - 1), 1, data.take k)
        (((data.getD k 0 * 256 + data.getD (k + 1) 0) >>> (9 - 1)) &&& 127)
      = (((((((data.getD k 0 * 256 + data.getD (k + 1) 0) >>> (9 - 1)) &&& 127) <<< 1) % 256)
            <<< (7 - (1 + 7 - 8))) % 256, 1 + 7 - 8,
          data.take k ++ [((data.getD k 0 >>> (8 - 1)) <<< (8 - 1)) |||
            (((((data.getD k 0 * 256 + data.getD (k + 1) 0) >>> (9 - 1)) &&& 127) <<< 1) % 256)
              >>> 1]) from by
      simp only [push7]
      rw [if_pos (show 1 + 7 ≥ 8 by omega)]]
    rw [(core_push_1 _ _ hb1 hb2).1, (core_push_1 _ _ hb1 hb2).2, htake]
    
  · rw [if_neg (show ¬ (2 : Nat) = 0 by omega)]
    rw [show push7 ((data.getD k 0 >>> (8 - 2)) <<< (8 - 2), 2, data.take k)
        (((data.getD k 0 * 256 + data.getD (k + 1) 0) >>> (9 - 2)) &&& 127)
      = (((((((data.getD k 0 * 256 + data.getD (k + 1) 0) >>> (9 - 2)) &&& 127) <<< 1) % 256)
            <<< (7 - (2 + 7 - 8))) % 256, 2 + 7 - 8,
          data.take k ++ [((data.getD k 0 >>> (8 - 2)) <<< (8 - 2)) |||
            (((((data.getD k 0 * 256 + data.getD (k + 1) 0) >>> (9 - 2)) &&& 127) <<< 1) % 256)
              >>> 2]) from by
      simp only [push7]
      rw [if_pos (show 2 + 7 ≥ 8 by omega)]]
    rw [(core_push_2 _ _ hb1 hb2).1, (core_push_2 _ _ hb1 hb2).2, htake]
    
  · rw [if_neg (show ¬ (3 : Nat) = 0 by omega)]
    rw [show push7 ((data.getD k 0 >>> (8 - 3)) <<< (8 - 3), 3, data.take k)
        (((data.getD k 0 * 256 + data.getD (k + 1) 0) >>> (9 - 3)) &&& 127)
      = (((((((data.getD k 0 * 256 + data.getD (k + 1) 0) >>> (9 - 3)) &&& 127) <<< 1) % 256)
            <<< (7 - (3 + 7 - 8))) % 256, 3 + 7 - 8,
          data.take k ++ [((data.getD k 0 >>> (8 - 3)) <<< (8 - 3)) |||
            (((((data.getD k 0 * 256 + data.getD (k + 1) 0) >>> (9 - 3)) &&& 127) <<< 1) % 256)
              >>> 3]) from by
      simp only [push7]
      rw [if_pos (show 3 + 7 ≥ 8 by omega)]]
    rw [(core_push_3 _ _ hb1 hb2).1, (core_push_3 _ _ hb1 hb2).2, htake]
    
  · rw [if_neg (show ¬ (4 : Nat) = 0 by omega)]
    rw [show push7 ((data.getD k 0 >>> (8 - 4)) <<< (8 - 4), 4, data.take k)
        (((data.getD k 0 * 256 + data.getD (k + 1) 0) >>> (9 - 4)) &&& 127)
      = (((((((data.getD k 0 * 256 + data.getD (k + 1) 0) >>> (9 - 4)) &&& 127) <<< 1) % 256)
            <<< (7 - (4 + 7 - 8))) % 256, 4 + 7 - 8,
          data.take k ++ [((data.getD k 0 >>> (8 - 4)) <<< (8 - 4)) |||
            (((((data.getD k 0 * 256 + data.getD (k + 1) 0) >>> (9 - 4)) &&& 127) <<< 1) % 256)
              >>> 4]) from by
      simp only [push7]
      rw [if_pos (show 4 + 7 ≥ 8 by omega)]]
    rw [(core_push_4 _ _ hb1 hb2).1, (core_push_4 _ _ hb1 hb2).2, htake]
    
  · rw [if_neg (show ¬ (5 : Nat) = 0 by omega)]
    rw [show push7 ((data.getD k 0 >>> (8 - 5)) <<< (8 - 5), 5, data.take k)
        (((data.getD k 0 * 256 + data.getD (k + 1) 0) >>> (9 - 5)) &&& 127)
      = (((((((data.getD k 0 * 256 + data.getD (k + 1) 0) >>> (9 - 5)) &&& 127) <<< 1) % 256)
            <<< (7 - (5 + 7 - 8))) % 256, 5 + 7 - 8,
          data.take k ++ [((data.getD k 0 >>> (8 - 5)) <<< (8 - 5)) |||
            (((((data.getD k 0 * 256 + data.getD (k + 1) 0) >>> (9 - 5)) &&& 127) <<< 1) % 256)
              >>> 5]) from by
      simp only [push7]
      rw [if_pos (show 5 + 7 ≥ 8 by omega)]]
    rw [(core_push_5 _ _ hb1 hb2).1, (core_push_5 _ _ hb1 hb2).2, htake]
    
  · rw [if_neg (show ¬ (6 : Nat) = 0 by omega)]
    rw [show push7 ((data.getD k 0 >>> (8 - 6)) <<< (8 - 6), 6, data.take k)
        (((data.getD k 0 * 256 + data.getD (k + 1) 0) >>> (9 - 6)) &&& 127)
      = (((((((data.getD k 0 * 256 + data.getD (k + 1) 0) >>> (9 - 6)) &&& 127) <<< 1) % 256)
            <<< (7 - (6 + 7 - 8))) % 256, 6 + 7 - 8,
          data.take k ++ [((data.getD k 0 >>> (8 - 6)) <<< (8 - 6)) |||
            (((((data.getD k 0 * 256 + data.getD (k + 1) 0) >>> (9 - 6)) &&& 127) <<< 1) % 256)
              >>> 6]) from by
      simp only [push7]
      rw [if_pos (show 6 + 7 ≥ 8 by omega)]]
    rw [(core_push_6 _ _ hb1 hb2).1, (core_push_6 _ _ hb1 hb2).2, htake]
    
  · rw [if_neg (show ¬ (7 : Nat) = 0 by omega)]
    rw [show push7 ((data.getD k 0 >>> (8 - 7)) <<< (8 - 7), 7, data.take k)
        (((data.getD k 0 * 256 + data.getD (k + 1) 0) >>> (9 - 7)) &&& 127)
      = (((((((data.getD k 0 * 256 + data.getD (k + 1) 0) >>> (9 - 7)) &&& 127) <<< 1) % 256)
            <<< (7 - (7 + 7 - 8))) % 256, 7 + 7 - 8,
          data.take k ++ [((data.getD k 0 >>> (8 - 7)) <<< (8 - 7)) |||
            (((((data.getD k 0 * 256 + data.getD (k + 1) 0) >>> (9 - 7)) &&& 127) <<< 1) % 256)
              >>> 7]) from by
      simp only [push7]
      rw [if_pos (show 7 + 7 ≥ 8 by omega)]]
    rw [(core_push_7 _ _ hb1 hb2).1, (core_push_7 _ _ hb1 hb2).2, htake]
    
theorem push7_step (data : List Nat) (hdata : ∀ b ∈ data, b < 256) (q : Nat)
    (hq : q < numChunks data.length) :
    push7 (stateAt data q) (specChunk data q) = stateAt data (q + 1) := by
  have hk : 7 * q / 8 < data.length := by
    unfold numChunks at hq
    omega
  have hm : 7 * q % 8 < 8 := Nat.mod_lt _ (by norm_num)
  simp only [stateAt, specChunk]
  rw [push7_step_km data hdata (7 * q / 8) (7 * q % 8) hk hm]
  by_cases h0 : 7 * q % 8 = 0
  · rw [if_pos h0]
    have e1 : 7 * (q + 1) / 8 = 7 * q / 8 := by omega
    have e2 : 7 * (q + 1) % 8 = 7 := by omega
    rw [e1, e2]
  · rw [if_neg h0]
    have e1 : 7 * (q + 1) / 8 = 7 * q / 8 + 1 := by omega
    have e2 : 7 * (q + 1) % 8 = 7 * q % 8 - 1 := by omega
    have e3 : (8 : Nat) - (7 * q % 8 - 1) = 9 - 7 * q % 8 := by omega
    rw [e1, e2, e3]

theorem stateAt_zero (data : List Nat) (hdata : ∀ b ∈ data, b < 256) :
    stateAt data 0 = (0, 0, []) := by
  have hb : data.getD 0 0 < 256 := by
    match data with
    | [] => norm_num
    | b :: l => exact hdata b (by simp)
  refine Prod.ext ?_ rfl
  show (data.getD 0 0 >>> 8) <<< 8 = 0
  rw [Nat.shiftRight_eq_div_pow, Nat.shiftLeft_eq]
  omega

theorem push7_fold_aux (data : List Nat) (hdata : ∀ b ∈ data, b < 256) :
    ∀ q, q ≤ numChunks data.length →
    ((List.range q).map (specChunk data)).foldl push7 (0, 0, []) = stateAt data q := by
  intro q
  induction q with
  | zero =>
    intro _
    rw [← stateAt_zero data hdata]
    rfl
  | succ q ih =>
    intro hq
    rw [List.range_succ, List.map_append, List.foldl_append, ih (by omega)]
    exact push7_step data hdata q (by omega)

theorem push7_fold (data : List Nat) (hdata : ∀ b ∈ data, b < 256) :
    (chunkList data).foldl push7 (0, 0, []) = stateAt data (numChunks data.length) :=
  push7_fold_aux data hdata _ (Nat.le_refl _)

theorem stateAt_final (data : List Nat) :
    (stateAt data (numChunks data.length)).2.2 = data := by
  simp only [stateAt]
  have e : 7 * numChunks data.length / 8 = data.length := by
    unfold numChunks
    omega
  rw [e, List.take_length]

theorem chunkList_lt (data : List Nat) : ∀ c ∈ chunkList data, c < 128 := by
  intro c hc
  simp only [chunkList, List.mem_map] at hc
  obtain ⟨t, -, rfl⟩ := hc
  exact specChunk_lt data t

theorem chunkList_units_wf (data : List Nat) :
    ∀ u ∈ specEncUnits (chunkList data), wfUnit u :=
  units_wf_aux (chunkList data).length _ (Nat.le_refl _) (chunkList_lt data)

theorem encode_eq_units (data : List Nat) (hdata : ∀ b ∈ data, b < 256) :
    encode data = (specEncUnits (chunkList data)).flatMap renderUnit := by
  by_cases hd : data = []
  · subst hd
    rfl
  · unfold encode
    rw [if_neg hd]
    dsimp only
    have hloop := encodeLoop_eq data hdata (8 * data.length + 8) 0 []
      (by unfold numChunks; omega)
    rw [show (7 * 0 / 8 : Nat) = 0 from rfl, show (7 * 0 % 8 : Nat) = 0 from rfl,
      chunkSuffix_eq_drop data 0, List.drop_zero, List.nil_append] at hloop
    rw [hloop, utf8Parse_units _ (chunkList_units_wf data)]
    rfl

theorem decode_eq_loop (cs : List Nat) :
    decode cs = (decodeLoop cs (0, 0, [])).map (fun st => Except.ok st.2.2) := by
  unfold decode
  by_cases h : cs = []
  · subst h
    rfl
  · rw [if_neg h]

theorem roundtrip_ok (data : List Nat) (hdata : ∀ b ∈ data, b < 256) :
    roundtrip data = some (Except.ok data) := by
  unfold roundtrip
  rw [encode_eq_units data hdata, utf8Parse_units _ (chunkList_units_wf data)]
  dsimp only
  rw [decode_eq_loop, decodeLoop_units _ _ (chunkList_units_wf data), units_pushes,
    push7_fold data hdata]
  exact congrArg (fun l => some (Except.ok l)) (stateAt_final data)

theorem units_render_length_aux : ∀ (n : Nat) (l : List Nat), l.length ≤ n →
    l.length ≤ ((specEncUnits l).flatMap renderUnit).length ∧
      ((specEncUnits l).flatMap renderUnit).length ≤ 2 * l.length := by
  intro n
  induction n with
  | zero =>
    intro l hl
    have hl0 : l = [] := List.eq_nil_of_length_eq_zero (by omega)
    subst hl0
    rw [specEncUnits_nil]
    simp
  | succ n ih =>
    intro l hl
    match l with
    | [] =>
      rw [specEncUnits_nil]
      simp
    | c :: rest =>
      cases hfind : List.findIdx? (fun x => x = c) ILLEGALS with
      | none =>
        rw [specEncUnits_safe _ hfind]
        have := ih rest (by simpa using hl)
        simp only [List.flatMap_cons, renderUnit, List.length_append, List.length_cons]
        simp at this ⊢
        omega
      | some k =>
        match rest with
        | [] =>
          rw [specEncUnits_esc_last hfind]
          simp [renderUnit]
        | c2 :: r2 =>
          rw [specEncUnits_esc _ hfind]
          have := ih r2 (by simp at hl; omega)
          simp only [List.flatMap_cons, renderUnit, List.length_append, List.length_cons]
          simp at this ⊢
          omega

theorem findIdx_none_of_not_mem {c : Nat} (h : c ∉ ILLEGALS) :
    List.findIdx? (fun x => x = c) ILLEGALS = none := by
  rw [List.findIdx?_eq_none_iff]
  intro x hx
  by_cases he : x = c
  · exact absurd (he ▸ hx) h
  · simp [he]

theorem units_render_length_safe : ∀ (l : List Nat), (∀ c ∈ l, c ∉ ILLEGALS) →
    ((specEncUnits l).flatMap renderUnit).length = l.length := by
  intro l
  induction l with
  | nil => intro _; rfl
  | cons c rest ih =>
    intro h
    rw [specEncUnits_safe _ (findIdx_none_of_not_mem (h c (by simp)))]
    simp only [List.flatMap_cons, renderUnit, List.length_append, List.length_cons]
    rw [ih (fun x hx => h x (by simp [hx]))]
    simp only [List.length_cons, List.length_nil]
    omega

theorem chunkList_length (data : List Nat) :
    (chunkList data).length = numChunks data.length := by
  simp [chunkList]

theorem encode_length_nodanger (data : List Nat) (hdata : ∀ b ∈ data, b < 256)
    (hnd : ∀ c ∈ chunkList data, c ∉ ILLEGALS) :
    (encode data).length = numChunks data.length := by
  rw [encode_eq_units data hdata, units_render_length_safe _ hnd, chunkList_length]

theorem encode_length_bounds (data : List Nat) (hdata : ∀ b ∈ data, b < 256) :
    data.length ≤ (encode data).length ∧
      (encode data).length ≤ 2 * numChunks data.length := by
  rw [encode_eq_units data hdata]
  have h := units_render_length_aux (chunkList data).length (chunkList data) (Nat.le_refl _)
  rw [chunkList_length] at h
  have hn : data.length ≤ numChunks data.length := by
    unfold numChunks
    omega
  exact ⟨by omega, by omega⟩

theorem and7_of_lt {c : Nat} (h : c < 2048) : (c >>> 8) &&& 7 = c >>> 8 := by
  have h8 : c >>> 8 < 8 := by
    rw [Nat.shiftRight_eq_div_pow]
    omega
  have := Nat.and_pow_two_sub_one_eq_mod (c >>> 8) 3
  norm_num at this
  omega

theorem decodeLoop_pushes : ∀ (cs : List Nat) (st : Nat × Nat × List Nat),
    (∀ c ∈ cs, c < 2048) →
    decodeLoop cs st = (decodePushes cs).map (fun ps => ps.foldl push7 st) := by
  intro cs
  induction cs with
  | nil => intro st _; rfl
  | cons c rest ih =>
    intro st hcs
    have hc : c < 2048 := hcs c (by simp)
    have hrest := fun x hx => hcs x (List.mem_cons_of_mem _ hx)
    show (if c > 127 then _ else _) = _
    by_cases h127 : c > 127
    · rw [if_pos h127]
      dsimp only
      rw [and7_of_lt hc]
      have hps : decodePushes (c :: rest)
          = (charPushes c).bind (fun p =>
              (decodePushes rest).map (fun ps => p ++ ps)) := by
        simp only [decodePushes, List.mapM_cons]
        cases charPushes c with
        | none => rfl
        | some p =>
          cases rest.mapM charPushes with
          | none => rfl
          | some ps => rfl
      by_cases h7 : c >>> 8 = 7
      · rw [if_neg (show ¬ c >>> 8 ≠ SHORTENED by simp [SHORTENED, h7])]
        rw [ih _ hrest, hps]
        rw [show charPushes c = some [c &&& 127] by
          unfold charPushes
          rw [if_neg (by omega), if_neg (by simp [h7])]]
        cases hdp : decodePushes rest with
        | none => rfl
        | some ps => rfl
      · rw [if_pos (show c >>> 8 ≠ SHORTENED by simp [SHORTENED]; omega)]
        rw [hps, show charPushes c
            = (ILLEGALS.get? (c >>> 8)).map (fun d => [d, c &&& 127]) by
          unfold charPushes
          rw [if_neg (by omega), if_pos (by simp [h7])]]
        cases hg : ILLEGALS.get? (c >>> 8) with
        | none => rfl
        | some d =>
          dsimp only [Option.map]
          rw [ih _ hrest]
          cases hdp : decodePushes rest with
          | none => rfl
          | some ps => rfl
    · rw [if_neg h127]
      rw [ih _ hrest]
      have hps : decodePushes (c :: rest)
          = (decodePushes rest).map (fun ps => c :: ps) := by
        simp only [decodePushes, List.mapM_cons]
        rw [show charPushes c = some [c] by
          unfold charPushes
          rw [if_pos (by omega)]]
        cases rest.mapM charPushes with
        | none => rfl
        | some ps => rfl
      rw [hps]
      cases hdp : decodePushes rest with
      | none => rfl
      | some ps => rfl

theorem get7StreamAux_eq (data : List Nat) (hdata : ∀ b ∈ data, b < 256) :
    ∀ (fuel t : Nat), numChunks data.length - t < fuel →
    get7StreamAux data fuel (7 * t / 8) (7 * t % 8) = chunkSuffix data t := by
  intro fuel
  induction fuel with
  | zero =>
    intro t h
    omega
  | succ fuel ih =>
    intro t hfuel
    show (match get7 data (7 * t / 8) (7 * t % 8) with
      | none => []
      | some (v, i1, b1) => v :: get7StreamAux data fuel i1 b1) = _
    by_cases ht : t < numChunks data.length
    · rw [get7_step_t data hdata t ht]
      dsimp only
      rw [ih (t + 1) (by omega), chunkSuffix_of_lt ht]
    · rw [get7_none data t ht, chunkSuffix_of_ge ht]

theorem get7Stream_eq (data : List Nat) (hdata : ∀ b ∈ data, b < 256) :
    get7Stream data = chunkList data := by
  have h := get7StreamAux_eq data hdata (8 * data.length + 8) 0 (by unfold numChunks; omega)
  rw [show (7 * 0 / 8 : Nat) = 0 from rfl, show (7 * 0 % 8 : Nat) = 0 from rfl] at h
  rw [get7Stream, h, chunkSuffix_eq_drop data 0, List.drop_zero]

set_option maxHeartbeats 1600000 in
theorem specChunk_bits (data : List Nat) (hdata : ∀ b ∈ data, b < 256) (t : Nat) :
    specChunk data t = 64 * streamBit data (7 * t) + 32 * streamBit data (7 * t + 1)
      + 16 * streamBit data (7 * t + 2) + 8 * streamBit data (7 * t + 3)
      + 4 * streamBit data (7 * t + 4) + 2 * streamBit data (7 * t + 5)
      + streamBit data (7 * t + 6) := by
  have hgd : ∀ i, data.getD i 0 < 256 := by
    intro i
    by_cases h : i < data.length
    · rw [List.getD_eq_getElem data 0 h]
      exact hdata _ (List.getElem_mem h)
    · rw [List.getD_eq_default data 0 (by omega)]
      norm_num
  obtain ⟨k, r, hr8, hsplit⟩ : ∃ k r, r < 8 ∧ 7 * t = 8 * k + r :=
    ⟨7 * t / 8, 7 * t % 8, Nat.mod_lt _ (by norm_num), by omega⟩
  have hb1 := hgd k
  have hb2 := hgd (k + 1)
  simp only [specChunk, streamBit]
  rw [show 7 * t / 8 = k from by omega, show 7 * t % 8 = r from by omega, hsplit]
  interval_cases r
  · rw [show (8 * k + 0 + 1) / 8 = k from by omega,
      show (8 * k + 0 + 1) % 8 = 1 from by omega,
      show (8 * k + 0 + 2) / 8 = k from by omega,
      show (8 * k + 0 + 2) % 8 = 2 from by omega,
      show (8 * k + 0 + 3) / 8 = k from by omega,
      show (8 * k + 0 + 3) % 8 = 3 from by omega,
      show (8 * k + 0 + 4) / 8 = k from by omega,
      show (8 * k + 0 + 4) % 8 = 4 from by omega,
      show (8 * k + 0 + 5) / 8 = k from by omega,
      show (8 * k + 0 + 5) % 8 = 5 from by omega,
      show (8 * k + 0 + 6) / 8 = k from by omega,
      show (8 * k + 0 + 6) % 8 = 6 from by omega]
    simp only [Nat.shiftRight_eq_div_pow, and127_eq, Nat.and_one_is_mod]
    omega
  · rw [show (8 * k + 1 + 1) / 8 = k from by omega,
      show (8 * k + 1 + 1) % 8 = 2 from by omega,
      show (8 * k + 1 + 2) / 8 = k from by omega,
      show (8 * k + 1 + 2) % 8 = 3 from by omega,
      show (8 * k + 1 + 3) / 8 = k from by omega,
      show (8 * k + 1 + 3) % 8 = 4 from by omega,
      show (8 * k + 1 + 4) / 8 = k from by omega,
      show (8 * k + 1 + 4) % 8 = 5 from by omega,
      show (8 * k + 1 + 5) / 8 = k from by omega,
      show (8 * k + 1 + 5) % 8 = 6 from by omega,
      show (8 * k + 1 + 6) / 8 = k from by omega,
      show (8 * k + 1 + 6) % 8 = 7 from by omega]
    simp only [Nat.shiftRight_eq_div_pow, and127_eq, Nat.and_one_is_mod]
    omega
  · rw [show (8 * k + 2 + 1) / 8 = k from by omega,
      show (8 * k + 2 + 1) % 8 = 3 from by omega,
      show (8 * k + 2 + 2) / 8 = k from by omega,
      show (8 * k + 2 + 2) % 8 = 4 from by omega,
      show (8 * k + 2 + 3) / 8 = k from by omega,
      show (8 * k + 2 + 3) % 8 = 5 from by omega,
      show (8 * k + 2 + 4) / 8 = k from by omega,
      show (8 * k + 2 + 4) % 8 = 6 from by omega,
      show (8 * k + 2 + 5) / 8 = k from by omega,
      show (8 * k + 2 + 5) % 8 = 7 from by omega,
      show (8 * k + 2 + 6) / 8 = k + 1 from by omega,
      show (8 * k + 2 + 6) % 8 = 0 from by omega]
    simp only [Nat.shiftRight_eq_div_pow, and127_eq, Nat.and_one_is_mod]
    omega
  · rw [show (8 * k + 3 + 1) / 8 = k from by omega,
      show (8 * k + 3 + 1) % 8 = 4 from by omega,
      show (8 * k + 3 + 2) / 8 = k from by omega,
      show (8 * k + 3 + 2) % 8 = 5 from by omega,
      show (8 * k + 3 + 3) / 8 = k from by omega,
      show (8 * k + 3 + 3) % 8 = 6 from by omega,
      show (8 * k + 3 + 4) / 8 = k from by omega,
      show (8 * k + 3 + 4) % 8 = 7 from by omega,
      show (8 * k + 3 + 5) / 8 = k + 1 from by omega,
      show (8 * k + 3 + 5) % 8 = 0 from by omega,
      show (8 * k + 3 + 6) / 8 = k + 1 from by omega,
      show (8 * k + 3 + 6) % 8 = 1 from by omega]
    simp only [Nat.shiftRight_eq_div_pow, and127_eq, Nat.and_one_is_mod]
    omega
  · rw [show (8 * k + 4 + 1) / 8 = k from by omega,
      show (8 * k + 4 + 1) % 8 = 5 from by omega,
      show (8 * k + 4 + 2) / 8 = k from by omega,
      show (8 * k + 4 + 2) % 8 = 6 from by omega,
      show (8 * k + 4 + 3) / 8 = k from by omega,
      show (8 * k + 4 + 3) % 8 = 7 from by omega,
      show (8 * k + 4 + 4) / 8 = k + 1 from by omega,
      show (8 * k + 4 + 4) % 8 = 0 from by omega,
      show (8 * k + 4 + 5) / 8 = k + 1 from by omega,
      show (8 * k + 4 + 5) % 8 = 1 from by omega,
      show (8 * k + 4 + 6) / 8 = k + 1 from by omega,
      show (8 * k + 4 + 6) % 8 = 2 from by omega]
    simp only [Nat.shiftRight_eq_div_pow, and127_eq, Nat.and_one_is_mod]
    omega
  · rw [show (8 * k + 5 + 1) / 8 = k from by omega,
      show (8 * k + 5 + 1) % 8 = 6 from by omega,
      show (8 * k + 5 + 2) / 8 = k from by omega,
      show (8 * k + 5 + 2) % 8 = 7 from by omega,
      show (8 * k + 5 + 3) / 8 = k + 1 from by omega,
      show (8 * k + 5 + 3) % 8 = 0 from by omega,
      show (8 * k + 5 + 4) / 8 = k + 1 from by omega,
      show (8 * k + 5 + 4) % 8 = 1 from by omega,
      show (8 * k + 5 + 5) / 8 = k + 1 from by omega,
      show (8 * k + 5 + 5) % 8 = 2 from by omega,
      show (8 * k + 5 + 6) / 8 = k + 1 from by omega,
      show (8 * k + 5 + 6) % 8 = 3 from by omega]
    simp only [Nat.shiftRight_eq_div_pow, and127_eq, Nat.and_one_is_mod]
    omega
  · rw [show (8 * k + 6 + 1) / 8 = k from by omega,
      show (8 * k + 6 + 1) % 8 = 7 from by omega,
      show (8 * k + 6 + 2) / 8 = k + 1 from by omega,
      show (8 * k + 6 + 2) % 8 = 0 from by omega,
      show (8 * k + 6 + 3) / 8 = k + 1 from by omega,
      show (8 * k + 6 + 3) % 8 = 1 from by omega,
      show (8 * k + 6 + 4) / 8 = k + 1 from by omega,
      show (8 * k + 6 + 4) % 8 = 2 from by omega,
      show (8 * k + 6 + 5) / 8 = k + 1 from by omega,
      show (8 * k + 6 + 5) % 8 = 3 from by omega,
      show (8 * k + 6 + 6) / 8 = k + 1 from by omega,
      show (8 * k + 6 + 6) % 8 = 4 from by omega]
    simp only [Nat.shiftRight_eq_div_pow, and127_eq, Nat.and_one_is_mod]
    omega
  · rw [show (8 * k + 7 + 1) / 8 = k + 1 from by omega,
      show (8 * k + 7 + 1) % 8 = 0 from by omega,
      show (8 * k + 7 + 2) / 8 = k + 1 from by omega,
      show (8 * k + 7 + 2) % 8 = 1 from by omega,
      show (8 * k + 7 + 3) / 8 = k + 1 from by omega,
      show (8 * k + 7 + 3) % 8 = 2 from by omega,
      show (8 * k + 7 + 4) / 8 = k + 1 from by omega,
      show (8 * k + 7 + 4) % 8 = 3 from by omega,
      show (8 * k + 7 + 5) / 8 = k + 1 from by omega,
      show (8 * k + 7 + 5) % 8 = 4 from by omega,
      show (8 * k + 7 + 6) / 8 = k + 1 from by omega,
      show (8 * k + 7 + 6) % 8 = 5 from by omega]
    simp only [Nat.shiftRight_eq_div_pow, and127_eq, Nat.and_one_is_mod]
    omega

theorem chunkList_getD (data : List Nat) (t : Nat) (ht : t < numChunks data.length) :
    (chunkList data).getD t 0 = specChunk data t := by
  have hlt : t < (chunkList data).length := by
    rw [chunkList_length]
    omega
  rw [List.getD_eq_getElem _ _ hlt]
  simp [chunkList]

theorem mkEscape_render_spec : ∀ k < 8, ∀ p < 128,
    [(mkEscape k p).1, (mkEscape k p).2] = specEscapeBytes k p := by decide

theorem flatMap_congr_mem {α β : Type} {l : List α} {f g : α → List β}
    (h : ∀ x ∈ l, f x = g x) : l.flatMap f = l.flatMap g := by
  induction l with
  | nil => rfl
  | cons a l ih =>
    simp only [List.flatMap_cons]
    rw [h a (by simp), ih (fun x hx => h x (by simp [hx]))]

/-! ## Claim theorems -/

/-- Claim C1 (confirmed).  Round-trip: for every byte sequence `b` (each byte
`< 256`), `decode (encode b)` succeeds and returns exactly `b`. -/
theorem C1_roundtrip (data : List Nat) (hdata : ∀ b ∈ data, b < 256) :
    roundtrip data = some (Except.ok data) :=
  roundtrip_ok data hdata

theorem C1_roundtrip_witness :
    roundtrip [72, 0, 255] = some (Except.ok [72, 0, 255]) :=
  C1_roundtrip [72, 0, 255] (by decide)

/-- Claim C2 (code bug).  The claim says `decode` rejects a scalar value
outside the two recognized shapes (such as the 3-byte-sequence scalar
U+20AC = 8364) with a decode error and emits no bytes.  The code instead
accepts it, derives index field `0` and payload `44`, and returns
`Ok(vec![0])` — it never constructs the `Err` variant, contradicting its
own `# Errors` documentation. -/
theorem C2_decode_invalid_scalar_ok :
    decode [0x20AC] = some (Except.ok [0]) := rfl

/-- Claim C3 (code bug).  The claim says the lookup `ILLEGALS[(c >> 8) & 7]`
is always within bounds and `decode` never panics.  For the valid scalar
U+0600 = 1536 the derived index is `6`, one past the end of the 6-entry
table, and the code panics (modelled as `none`). -/
theorem C3_decode_panics : decode [0x600] = none := rfl

/-- Claim C4 (confirmed).  `encode` always produces well-formed text made
only of one-byte scalar values in `[0,127]` and well-formed two-byte escape
scalar values in `[128, 2047]`; never 3-byte-or-longer sequences. -/
theorem C4_output_wellformed (data : List Nat) (hdata : ∀ b ∈ data, b < 256) :
    ∃ cs, utf8Parse (encode data) = some cs ∧
      ∀ c ∈ cs, c ≤ 127 ∨ (128 ≤ c ∧ c ≤ 2047) := by
  have hparse : utf8Parse (encode data)
      = some ((specEncUnits (chunkList data)).map charOfUnit) := by
    rw [encode_eq_units data hdata]
    exact utf8Parse_units _ (chunkList_units_wf data)
  refine ⟨_, hparse, ?_⟩
  intro c hc
  simp only [List.mem_map] at hc
  obtain ⟨u, hu, rfl⟩ := hc
  have hwf := chunkList_units_wf data u hu
  cases u with
  | safe c =>
    have : c < 128 := hwf
    left
    simp only [charOfUnit]
    omega
  | esc k p =>
    obtain ⟨hk, hp⟩ := hwf
    right
    simp only [charOfUnit]
    rcases hk with hk | hk <;> omega

theorem C4_output_wellformed_witness :
    ∃ cs, utf8Parse (encode [0, 65]) = some cs ∧
      ∀ c ∈ cs, c ≤ 127 ∨ (128 ≤ c ∧ c ≤ 2047) :=
  C4_output_wellformed [0, 65] (by decide)

/-- Claim C5 (confirmed).  Density: when no 7-bit chunk of the input is
dangerous, `encode` emits exactly `ceil(8n/7)` bytes; in general the output
length is between `n` and `2 * ceil(8n/7)`. -/
theorem C5_density (data : List Nat) (hdata : ∀ b ∈ data, b < 256) :
    ((∀ c ∈ chunkList data, c ∉ ILLEGALS) →
        (encode data).length = (8 * data.length + 6) / 7) ∧
      (data.length ≤ (encode data).length ∧
        (encode data).length ≤ 2 * ((8 * data.length + 6) / 7)) :=
  ⟨fun hnd => encode_length_nodanger data hdata hnd,
    encode_length_bounds data hdata⟩

theorem C5_density_witness :
    ((∀ c ∈ chunkList [65], c ∉ ILLEGALS) →
        (encode [65]).length = (8 * [65].length + 6) / 7) ∧
      ([65].length ≤ (encode [65]).length ∧
        (encode [65]).length ≤ 2 * ((8 * [65].length + 6) / 7)) :=
  C5_density [65] (by decide)

/-- Claim C6 (confirmed).  The encoder's escape semantics: `encode` equals
the spec-level per-chunk encoder `specEncUnits` — each dangerous chunk at
illegal index `k` pulls one more chunk and becomes one escape with index
field `k` and payload the next chunk (which is consumed and not emitted
separately), or, when the dangerous chunk is last, one escape with the
shortened marker 7 and payload the dangerous chunk's own value. -/
theorem C6_escape_consumption (data : List Nat) (hdata : ∀ b ∈ data, b < 256) :
    encode data = (specEncUnits (chunkList data)).flatMap renderUnit :=
  encode_eq_units data hdata

theorem C6_escape_consumption_witness :
    encode [0] = (specEncUnits (chunkList [0])).flatMap renderUnit :=
  C6_escape_consumption [0] (by decide)

/-- Claim C7 (confirmed).  Escape byte layout: every 2-byte escape emitted by
`encode` has `b1 = 0b11000010 ||| (index_field <<< 2) ||| payload_bit6` and
`b2 = 0b10000000 ||| (payload &&& 0b0111111)` (the `specEscapeBytes`
formula from the claim). -/
theorem C7_escape_layout (data : List Nat) (hdata : ∀ b ∈ data, b < 256) :
    encode data = (specEncUnits (chunkList data)).flatMap
      (fun u => match u with
        | .safe c => [c]
        | .esc k p => specEscapeBytes k p) := by
  rw [encode_eq_units data hdata]
  refine flatMap_congr_mem ?_
  intro u hu
  have hwf := chunkList_units_wf data u hu
  cases u with
  | safe c => rfl
  | esc k p =>
    obtain ⟨hk, hp⟩ := hwf
    have hk8 : k < 8 := by omega
    exact mkEscape_render_spec k hk8 p hp

theorem C7_escape_layout_witness :
    encode [0] = (specEncUnits (chunkList [0])).flatMap
      (fun u => match u with
        | .safe c => [c]
        | .esc k p => specEscapeBytes k p) :=
  C7_escape_layout [0] (by decide)

/-- Claim C8 (confirmed).  Per-scalar decode dispatch: for input whose scalar
values are 11-bit, `decode` performs, in input order, exactly the pushes
described by `charPushes` — `push7 c` for `c ≤ 127`; otherwise with
`index_field = c >>> 8` and `payload = c &&& 127`,
`push7 dangerous_set[index_field]` then `push7 payload` when
`index_field ≠ 7`, and `push7 payload` alone when `index_field = 7`. -/
theorem C8_decode_dispatch (cs : List Nat) (hcs : ∀ c ∈ cs, c < 2048) :
    decode cs = (decodePushes cs).map
      (fun ps => Except.ok (ps.foldl push7 (0, 0, [])).2.2) := by
  rw [decode_eq_loop, decodeLoop_pushes cs _ hcs, Option.map_map]
  rfl

theorem C8_decode_dispatch_witness :
    decode [200, 65] = (decodePushes [200, 65]).map
      (fun ps => Except.ok (ps.foldl push7 (0, 0, [])).2.2) :=
  C8_decode_dispatch [200, 65] (by decide)

/-- Claim C9 (confirmed).  The `get7` extractor yields exactly
`ceil(8n/7)` chunks and then signals end-of-input, and the `t`-th chunk
consists of input bits `7t .. 7t+6` (most significant bit first, bytes in
order, missing low-order bits of the final short chunk zero-filled). -/
theorem C9_extractor (data : List Nat) (hdata : ∀ b ∈ data, b < 256) :
    (get7Stream data).length = (8 * data.length + 6) / 7 ∧
      ∀ t, t < (8 * data.length + 6) / 7 →
        (get7Stream data).getD t 0
          = 64 * streamBit data (7 * t) + 32 * streamBit data (7 * t + 1)
            + 16 * streamBit data (7 * t + 2) + 8 * streamBit data (7 * t + 3)
            + 4 * streamBit data (7 * t + 4) + 2 * streamBit data (7 * t + 5)
            + streamBit data (7 * t + 6) := by
  rw [get7Stream_eq data hdata]
  constructor
  · exact chunkList_length data
  · intro t ht
    rw [chunkList_getD data t ht]
    exact specChunk_bits data hdata t

theorem C9_extractor_witness :
    (get7Stream [65]).length = (8 * [65].length + 6) / 7 ∧
      ∀ t, t < (8 * [65].length + 6) / 7 →
        (get7Stream [65]).getD t 0
          = 64 * streamBit [65] (7 * t) + 32 * streamBit [65] (7 * t + 1)
            + 16 * streamBit [65] (7 * t + 2) + 8 * streamBit [65] (7 * t + 3)
            + 4 * streamBit [65] (7 * t + 4) + 2 * streamBit [65] (7 * t + 5)
            + streamBit [65] (7 * t + 6) :=
  C9_extractor [65] (by decide)

/-- Claim C10 (confirmed).  Whenever `decode` returns (does not panic), the
result is the `Ok` variant: no execution path constructs `Err`. -/
theorem C10_no_err (cs : List Nat) (r : Except String (List Nat))
    (h : decode cs = some r) : ∃ bs, r = Except.ok bs := by
  rw [decode_eq_loop] at h
  cases hdl : decodeLoop cs (0, 0, []) with
  | none =>
    rw [hdl] at h
    exact Option.noConfusion h
  | some st =>
    rw [hdl] at h
    exact ⟨st.2.2, (Option.some.inj h).symm⟩

theorem C10_no_err_witness :
    ∃ bs, (Except.ok [] : Except String (List Nat)) = Except.ok bs :=
  C10_no_err [65] (Except.ok []) rfl

end Base122
